import Mathlib

/-!
Verification of the OSM batch downloader (`src/tools/download_osm.py`).

The program has three verifiable parts, each embedded below from the source:

* `sanitize_filename` — a pure string sanitizer built from Python regex
  substitutions, modelled as executable functions on `List Char` (ASCII
  reading of the regex classes `\s` and `\w`; the catalog is ASCII text);
* `calculate_bounding_box` — spherical-earth geometry over `ℝ` with
  `Real.cos` standing for `math.cos`;
* the `__main__` fetch-and-persist loop — a pure fold over an explicit
  driver state, with the filesystem and the network as an environment
  (`preexisting` files, per-path network outcome).
-/

namespace OSMDownload

/-! ### Filename sanitizer (`sanitize_filename`) -/

/-- The characters below 0x80 that Python's `str.strip()` strips and the
regex class `\s` matches: the six usual whitespace characters plus the
separator controls U+001C-U+001F.  This is exactly Python's whitespace on
ASCII; beyond ASCII Python also treats U+0085, U+00A0 and other Unicode
whitespace as `\s` — see `isPySpaceL1`. -/
def isPySpace (c : Char) : Bool :=
  c == ' ' || c == '\t' || c == '\n' || c == '\r' || c == '\x0b' || c == '\x0c' ||
    c == '\x1c' || c == '\x1d' || c == '\x1e' || c == '\x1f'

/-- Characters matched by the class `[\s/\\:]` of
`re.sub(r"[\s/\\:]+", "_", name)`, ASCII reading. -/
def isSepChar (c : Char) : Bool :=
  isPySpace c || c == '/' || c == '\\' || c == ':'

/-- The regex class `\w` in its ASCII reading: `[A-Za-z0-9_]`.  Python 3's
`\w` on `str` additionally matches non-ASCII Unicode word characters (such
as `é`); `isWordCharL1` below extends this definition faithfully to the
Latin-1 range, which is what the C2 correction turns on. -/
def isWordChar (c : Char) : Bool :=
  c.isAlphanum || c == '_'

/-- Characters kept by `re.sub(r"[^\w\-\.]", "", name)` in the ASCII
reading: word characters, hyphen and period — exactly the set
`[A-Za-z0-9_.-]` that the spec names. -/
def isKept (c : Char) : Bool :=
  isWordChar c || c == '-' || c == '.'

/-- The character set of Python's `name.strip("_-")`. -/
def isStripChar (c : Char) : Bool :=
  c == '_' || c == '-'

/-- Remove the longest trailing run of characters satisfying `p` (the right
half of Python's `str.strip`). -/
def dropTrailing (p : Char → Bool) (l : List Char) : List Char :=
  (l.reverse.dropWhile p).reverse

/-- Python's `str.strip(chars)`: drop leading and trailing characters
satisfying `p`. -/
def pyStrip (p : Char → Bool) (l : List Char) : List Char :=
  dropTrailing p (l.dropWhile p)

/-- Replace every maximal run of characters satisfying `p` by the single
character `r`; the flag records whether the previous character was part of a
run.  `collapseAux p r false` is the semantics of `re.sub("[c]+", r, ·)`,
and also of `re.sub("[c]{2,}", r, ·)` in the two uses below, where a run of
length one consists of the character `r` itself and is left unchanged by
both. -/
def collapseAux (p : Char → Bool) (r : Char) : Bool → List Char → List Char
  | _, [] => []
  | inRun, c :: rest =>
    if p c then
      if inRun then collapseAux p r true rest
      else r :: collapseAux p r true rest
    else c :: collapseAux p r false rest

/-- Replace every maximal run of characters satisfying `p` by `r`. -/
def collapseRuns (p : Char → Bool) (r : Char) (l : List Char) : List Char :=
  collapseAux p r false l

/-- The sanitizer pipeline of `sanitize_filename` before the empty-name
fallback: strip whitespace, replace separator runs by `_`, delete disallowed
characters, collapse `_` runs, collapse `-` runs, strip `_`/`-` at both
ends. -/
def sanitizeCore (l : List Char) : List Char :=
  pyStrip isStripChar
    (collapseRuns (fun c => c == '-') '-'
      (collapseRuns (fun c => c == '_') '_'
        ((collapseRuns isSepChar '_' (pyStrip isPySpace l)).filter isKept)))

/-- `sanitize_filename` on the character-list level, fallback included. -/
def sanitizeList (l : List Char) : List Char :=
  if sanitizeCore l = [] then "unnamed".data else sanitizeCore l

/-- Embedding of `sanitize_filename` from `src/tools/download_osm.py`
(lines 556-573), with the character classes in their ASCII reading: on ASCII
strings — the entire catalog — this is the program's sanitizer exactly
(`sanitize_filenameL1_ascii`).  On non-ASCII strings Python's Unicode-aware
classes diverge from the ASCII reading; `sanitize_filenameL1` below extends
fidelity to the Latin-1 range. -/
def sanitize_filename (s : String) : String :=
  String.mk (sanitizeList s.data)

/-- Python's `str.strip()` / regex `\s` restricted to the Latin-1 range
(code points below 0x100): the ASCII whitespace plus U+0085 (next line) and
U+00A0 (no-break space).  These are exactly the Latin-1 code points with the
Unicode white-space semantics Python uses. -/
def isPySpaceL1 (c : Char) : Bool :=
  isPySpace c || c == '\x85' || c == '\xA0'

/-- The class `[\s/\\:]` under the Latin-1 reading of `\s`. -/
def isSepCharL1 (c : Char) : Bool :=
  isPySpaceL1 c || c == '/' || c == '\\' || c == ':'

/-- Python 3's regex `\w` restricted to the Latin-1 range.  `\w` on `str`
matches the characters `str.isalnum()` accepts plus `_`; among the Latin-1
code points beyond ASCII these are exactly `ª` (U+00AA), `²`, `³` (U+00B2,
U+00B3), `µ` (U+00B5), `¹` (U+00B9), `º` (U+00BA), `¼`, `½`, `¾`
(U+00BC-U+00BE) and the letters U+00C0-U+00FF other than `×` (U+00D7) and
`÷` (U+00F7). -/
def isWordCharL1 (c : Char) : Bool :=
  isWordChar c || c == 'ª' || c == '²' || c == '³' || c == 'µ' || c == '¹' ||
    c == 'º' || c == '¼' || c == '½' || c == '¾' ||
    (decide (0xC0 ≤ c.toNat) && decide (c.toNat ≤ 0xFF) && !(c == '×') && !(c == '÷'))

/-- Characters kept by `re.sub(r"[^\w\-\.]", "", name)` under the Latin-1
reading of `\w`. -/
def isKeptL1 (c : Char) : Bool :=
  isWordCharL1 c || c == '-' || c == '.'

/-- The sanitizer pipeline under the Latin-1 reading of the character
classes: on strings of Latin-1 characters this is Python's
`sanitize_filename` exactly, beyond the ASCII fragment `sanitizeCore`
covers. -/
def sanitizeCoreL1 (l : List Char) : List Char :=
  pyStrip isStripChar
    (collapseRuns (fun c => c == '-') '-'
      (collapseRuns (fun c => c == '_') '_'
        ((collapseRuns isSepCharL1 '_' (pyStrip isPySpaceL1 l)).filter isKeptL1)))

/-- `sanitize_filename` on the character-list level under the Latin-1
reading, fallback included. -/
def sanitizeListL1 (l : List Char) : List Char :=
  if sanitizeCoreL1 l = [] then "unnamed".data else sanitizeCoreL1 l

/-- The program's `sanitize_filename` on Latin-1 strings: faithful to the
source on every string whose characters lie below 0x100.  It agrees with
`sanitize_filename` on ASCII strings (`sanitize_filenameL1_ascii`) and
exhibits the Unicode behavior the ASCII reading misses — the C2
counterexample. -/
def sanitize_filenameL1 (s : String) : String :=
  String.mk (sanitizeListL1 s.data)

/-! ### Bounding-box geometry (`calculate_bounding_box`)

The Python code computes with IEEE floats; following the spec's own reading
("within floating tolerance; exactly as real-number equations"), the
embedding is over `ℝ`, with `Real.cos` for `math.cos`. -/

/-- Python's `math.radians`. -/
noncomputable def radians (x : ℝ) : ℝ := x * (Real.pi / 180)

/-- Python's `math.degrees`. -/
noncomputable def degrees (x : ℝ) : ℝ := x * (180 / Real.pi)

/-- The Earth-radius constant `earth_radius_km = 6371.0` of
`calculate_bounding_box`. -/
noncomputable def earth_radius_km : ℝ := 6371

/-- Result quadruple `(min_lat, min_lon, max_lat, max_lon)` of
`calculate_bounding_box`, with named fields. -/
structure BBox where
  min_lat : ℝ
  min_lon : ℝ
  max_lat : ℝ
  max_lon : ℝ

/-- Embedding of `calculate_bounding_box` from `src/tools/download_osm.py`
(lines 576-619). -/
noncomputable def calculate_bounding_box (lat_deg lon_deg size_km : ℝ) : BBox :=
  let lat_rad := radians lat_deg
  let delta_lat_deg := degrees ((size_km / 2) / earth_radius_km)
  let parallel_radius_km := earth_radius_km * Real.cos lat_rad
  let delta_lon_deg :=
    if parallel_radius_km < 0.1 then
      degrees ((size_km / 2) / (earth_radius_km * Real.cos (radians 1)))
    else
      degrees ((size_km / 2) / parallel_radius_km)
  ⟨lat_deg - delta_lat_deg, lon_deg - delta_lon_deg,
   lat_deg + delta_lat_deg, lon_deg + delta_lon_deg⟩

/-- The branch of `calculate_bounding_box` that prints the near-pole warning:
the warning is emitted exactly when the parallel-circle radius falls below
the 0.1 km threshold. -/
def poleWarningEmitted (lat_deg : ℝ) : Prop :=
  earth_radius_km * Real.cos (radians lat_deg) < 0.1

/-! ### Fetch-and-persist driver (the `__main__` loop)

The loop is embedded as a pure fold over an explicit state.  The catalog is
presented as the ordered list of the derived output paths of its locations;
the filesystem before the run and the outcome of each network call are an
environment.  `download_osm_data` writes the file exactly when it returns
`True`, so one Boolean per path captures both. -/

/-- Environment of one driver run: which output files already exist on disk
before the run starts, and whether the network call for a given output path
succeeds (the file is then written) or fails. -/
structure DriverConfig where
  preexisting : String → Bool
  netSuccess : String → Bool

/-- State of the `__main__` loop: the three counters, the files written so
far in this run, the network calls performed so far (in order), and the
number of `time.sleep(API_DELAY)` pauses issued so far. -/
structure DriverState where
  processed : Nat
  success : Nat
  failed : Nat
  written : List String
  calls : List String
  sleeps : Nat

/-- The state at the start of a run. -/
def initState : DriverState :=
  ⟨0, 0, 0, [], [], 0⟩

/-- `os.path.exists(output_path)`: true if the file pre-existed the run or
was written earlier in the same run. -/
def fileExists (cfg : DriverConfig) (st : DriverState) (p : String) : Bool :=
  cfg.preexisting p || decide (p ∈ st.written)

/-- One iteration of the location loop of `__main__`
(`src/tools/download_osm.py` lines 707-744) for the location with derived
output path `p`: increment `processed_count`; if the file exists, count a
success and `continue` (no call, no write, no sleep); otherwise perform the
network call, account its outcome, and sleep unless this location is the
last of the whole catalog (`processed_count < total_locations`). -/
def stepLocation (cfg : DriverConfig) (total : Nat) (st : DriverState) (p : String) :
    DriverState :=
  let st1 := { st with processed := st.processed + 1 }
  if fileExists cfg st1 p then
    { st1 with success := st1.success + 1 }
  else
    let st2 := { st1 with calls := st1.calls ++ [p] }
    let st3 :=
      if cfg.netSuccess p then
        { st2 with success := st2.success + 1, written := st2.written ++ [p] }
      else
        { st2 with failed := st2.failed + 1 }
    if st3.processed < total then { st3 with sleeps := st3.sleeps + 1 } else st3

/-- The loop over a list of locations, given the catalog's total count. -/
def runAux (cfg : DriverConfig) (total : Nat) (st : DriverState)
    (paths : List String) : DriverState :=
  paths.foldl (stepLocation cfg total) st

/-- A complete driver run over the catalog. -/
def runDriver (cfg : DriverConfig) (paths : List String) : DriverState :=
  runAux cfg paths.length initState paths

/-! ### Examples and theorems -/

example : sanitize_filename "  Central Hong Kong! " = "Central_Hong_Kong" := by decide

example : sanitize_filename "" = "unnamed" := by decide

example : sanitize_filename "__::!!--__" = "unnamed" := by decide

example : sanitize_filenameL1 "  Central Hong Kong! " = "Central_Hong_Kong" := by decide

example : sanitize_filenameL1 "a\xA0b" = "a_b" := by decide

example : sanitize_filename "a\xA0b" = "ab" := by decide

/-! ### Character-class facts -/

theorem bool_eq_false {b : Bool} (h : ¬(b = true)) : b = false := by
  simp at h
  exact h

theorem pySpace_not_kept (c : Char) (h : isPySpace c = true) : isKept c = false := by
  simp only [isPySpace, Bool.or_eq_true, beq_iff_eq] at h
  rcases h with ((((((((h | h) | h) | h) | h) | h) | h) | h) | h) | h <;> subst h <;> rfl

theorem sep_not_kept (c : Char) (h : isSepChar c = true) : isKept c = false := by
  simp only [isSepChar, Bool.or_eq_true, beq_iff_eq] at h
  rcases h with ((h | h) | h) | h
  · exact pySpace_not_kept c h
  · subst h; rfl
  · subst h; rfl
  · subst h; rfl

theorem kept_not_pySpace (c : Char) (h : isKept c = true) : isPySpace c = false := by
  cases hs : isPySpace c with
  | false => rfl
  | true =>
    have hk := pySpace_not_kept c hs
    rw [hk] at h
    exact absurd h (by simp)

theorem kept_not_sep (c : Char) (h : isKept c = true) : isSepChar c = false := by
  cases hs : isSepChar c with
  | false => rfl
  | true =>
    have hk := sep_not_kept c hs
    rw [hk] at h
    exact absurd h (by simp)

/-! ### The Latin-1 classes agree with the ASCII reading on ASCII -/

theorem beq_false_of_toNat_lt (c d : Char) (h : c.toNat < 128) (hd : 128 ≤ d.toNat) :
    (c == d) = false := by
  cases hcd : c == d with
  | false => rfl
  | true =>
    have he : c = d := by simpa using hcd
    subst he
    omega

theorem isPySpaceL1_ascii (c : Char) (h : c.toNat < 128) : isPySpaceL1 c = isPySpace c := by
  unfold isPySpaceL1
  rw [beq_false_of_toNat_lt c '\x85' h (by decide),
    beq_false_of_toNat_lt c '\xA0' h (by decide)]
  simp

theorem isSepCharL1_ascii (c : Char) (h : c.toNat < 128) : isSepCharL1 c = isSepChar c := by
  unfold isSepCharL1 isSepChar
  rw [isPySpaceL1_ascii c h]

theorem isWordCharL1_ascii (c : Char) (h : c.toNat < 128) : isWordCharL1 c = isWordChar c := by
  unfold isWordCharL1
  rw [beq_false_of_toNat_lt c 'ª' h (by decide),
    beq_false_of_toNat_lt c '²' h (by decide),
    beq_false_of_toNat_lt c '³' h (by decide),
    beq_false_of_toNat_lt c 'µ' h (by decide),
    beq_false_of_toNat_lt c '¹' h (by decide),
    beq_false_of_toNat_lt c 'º' h (by decide),
    beq_false_of_toNat_lt c '¼' h (by decide),
    beq_false_of_toNat_lt c '½' h (by decide),
    beq_false_of_toNat_lt c '¾' h (by decide),
    decide_eq_false (show ¬(0xC0 ≤ c.toNat) from by omega)]
  simp

theorem isKeptL1_ascii (c : Char) (h : c.toNat < 128) : isKeptL1 c = isKept c := by
  unfold isKeptL1 isKept
  rw [isWordCharL1_ascii c h]

/-! ### List helper lemmas -/

theorem mem_of_head?_eq {α : Type} {l : List α} {c : α} (h : l.head? = some c) :
    c ∈ l := by
  cases l with
  | nil => simp at h
  | cons a t =>
    simp only [List.head?_cons, Option.some.injEq] at h
    exact h ▸ List.mem_cons_self a t

theorem mem_of_getLast?_eq {α : Type} {l : List α} {c : α} (h : l.getLast? = some c) :
    c ∈ l := by
  have h' : l.reverse.head? = some c := by rw [List.head?_reverse]; exact h
  have := mem_of_head?_eq h'
  simpa using this

theorem head?_dropWhile_false {α : Type} (p : α → Bool) :
    ∀ (l : List α) (c : α), (l.dropWhile p).head? = some c → p c = false := by
  intro l
  induction l with
  | nil => intro c h; simp [List.dropWhile] at h
  | cons a t ih =>
    intro c h
    rw [List.dropWhile_cons] at h
    by_cases hp : p a = true
    · rw [if_pos hp] at h
      exact ih c h
    · rw [if_neg hp] at h
      simp only [List.head?_cons, Option.some.injEq] at h
      subst h
      exact bool_eq_false hp

theorem dropWhile_eq_self_of_head {α : Type} (p : α → Bool) (l : List α)
    (h : ∀ c, l.head? = some c → p c = false) : l.dropWhile p = l := by
  cases l with
  | nil => rfl
  | cons a t =>
    rw [List.dropWhile_cons, if_neg (by simp [h a rfl])]

theorem mem_of_mem_dropWhile {α : Type} (p : α → Bool) :
    ∀ (l : List α) (c : α), c ∈ l.dropWhile p → c ∈ l := by
  intro l
  induction l with
  | nil => intro c h; simp at h
  | cons a t ih =>
    intro c h
    rw [List.dropWhile_cons] at h
    by_cases hp : p a = true
    · rw [if_pos hp] at h
      exact List.mem_cons_of_mem a (ih c h)
    · rwa [if_neg hp] at h

theorem getLast?_dropWhile {α : Type} (p : α → Bool) :
    ∀ (l : List α), l.dropWhile p ≠ [] → (l.dropWhile p).getLast? = l.getLast? := by
  intro l
  induction l with
  | nil => intro h; simp [List.dropWhile] at h
  | cons a t ih =>
    intro h
    rw [List.dropWhile_cons] at h ⊢
    by_cases hp : p a = true
    · rw [if_pos hp] at h ⊢
      have ht : t ≠ [] := by
        intro he
        subst he
        simp [List.dropWhile] at h
      rw [ih h]
      cases t with
      | nil => exact absurd rfl ht
      | cons b t' => rw [List.getLast?_cons_cons]
    · rw [if_neg hp]

/-! ### `dropTrailing` and `pyStrip` lemmas -/

theorem mem_of_mem_dropTrailing (p : Char → Bool) (l : List Char) (c : Char)
    (h : c ∈ dropTrailing p l) : c ∈ l := by
  unfold dropTrailing at h
  rw [List.mem_reverse] at h
  have := mem_of_mem_dropWhile p l.reverse c h
  rwa [List.mem_reverse] at this

theorem getLast?_dropTrailing_false (p : Char → Bool) (l : List Char) (c : Char)
    (h : (dropTrailing p l).getLast? = some c) : p c = false := by
  unfold dropTrailing at h
  rw [List.getLast?_reverse] at h
  exact head?_dropWhile_false p l.reverse c h

theorem head?_dropTrailing (p : Char → Bool) (l : List Char)
    (h : dropTrailing p l ≠ []) : (dropTrailing p l).head? = l.head? := by
  unfold dropTrailing at h ⊢
  rw [List.head?_reverse]
  have hne : l.reverse.dropWhile p ≠ [] := by
    intro he
    rw [he] at h
    simp at h
  rw [getLast?_dropWhile p l.reverse hne, List.getLast?_reverse]

theorem dropTrailing_eq_self (p : Char → Bool) (l : List Char)
    (h : ∀ c, l.getLast? = some c → p c = false) : dropTrailing p l = l := by
  unfold dropTrailing
  have hd : l.reverse.dropWhile p = l.reverse := by
    apply dropWhile_eq_self_of_head
    intro c hc
    rw [List.head?_reverse] at hc
    exact h c hc
  rw [hd, List.reverse_reverse]

theorem mem_of_mem_pyStrip (p : Char → Bool) (l : List Char) (c : Char)
    (h : c ∈ pyStrip p l) : c ∈ l :=
  mem_of_mem_dropWhile p l c (mem_of_mem_dropTrailing p (l.dropWhile p) c h)

theorem head?_pyStrip_false (p : Char → Bool) (l : List Char) (c : Char)
    (h : (pyStrip p l).head? = some c) : p c = false := by
  unfold pyStrip at h
  have hne : dropTrailing p (l.dropWhile p) ≠ [] := by
    intro he
    rw [he] at h
    simp at h
  rw [head?_dropTrailing p _ hne] at h
  exact head?_dropWhile_false p l c h

theorem getLast?_pyStrip_false (p : Char → Bool) (l : List Char) (c : Char)
    (h : (pyStrip p l).getLast? = some c) : p c = false :=
  getLast?_dropTrailing_false p _ c h

theorem pyStrip_eq_self (p : Char → Bool) (l : List Char)
    (hh : ∀ c, l.head? = some c → p c = false)
    (hl : ∀ c, l.getLast? = some c → p c = false) : pyStrip p l = l := by
  unfold pyStrip
  rw [dropWhile_eq_self_of_head p l hh]
  exact dropTrailing_eq_self p l hl

/-! ### Congruence: predicates that agree on a list act alike on it -/

theorem dropWhile_congr_mem {α : Type} (p q : α → Bool) :
    ∀ (l : List α), (∀ c ∈ l, p c = q c) → l.dropWhile p = l.dropWhile q := by
  intro l
  induction l with
  | nil => intro _; rfl
  | cons a t ih =>
    intro h
    rw [List.dropWhile_cons, List.dropWhile_cons, h a (List.mem_cons_self a t),
      ih (fun c hc => h c (List.mem_cons_of_mem a hc))]

theorem dropTrailing_congr_mem (p q : Char → Bool) (l : List Char)
    (h : ∀ c ∈ l, p c = q c) : dropTrailing p l = dropTrailing q l := by
  unfold dropTrailing
  rw [dropWhile_congr_mem p q l.reverse (fun c hc => h c (List.mem_reverse.mp hc))]

theorem pyStrip_congr_mem (p q : Char → Bool) (l : List Char)
    (h : ∀ c ∈ l, p c = q c) : pyStrip p l = pyStrip q l := by
  unfold pyStrip
  rw [dropWhile_congr_mem p q l h]
  exact dropTrailing_congr_mem p q _ (fun c hc => h c (mem_of_mem_dropWhile q l c hc))

theorem filter_congr_mem {α : Type} (p q : α → Bool) :
    ∀ (l : List α), (∀ c ∈ l, p c = q c) → l.filter p = l.filter q := by
  intro l
  induction l with
  | nil => intro _; rfl
  | cons a t ih =>
    intro h
    rw [List.filter_cons, List.filter_cons, h a (List.mem_cons_self a t),
      ih (fun c hc => h c (List.mem_cons_of_mem a hc))]

/-! ### Chain lemmas: no two adjacent characters of a given class -/

theorem chain'_dropWhile {R : Char → Char → Prop} (p : Char → Bool) :
    ∀ (l : List Char), List.Chain' R l → List.Chain' R (l.dropWhile p) := by
  intro l
  induction l with
  | nil => intro h; simp
  | cons a t ih =>
    intro h
    rw [List.dropWhile_cons]
    by_cases hp : p a = true
    · rw [if_pos hp]
      exact ih (List.chain'_cons'.mp h).2
    · rw [if_neg hp]
      exact h

theorem chain'_dropTrailing {R : Char → Char → Prop} (p : Char → Bool) (l : List Char)
    (h : List.Chain' R l) : List.Chain' R (dropTrailing p l) := by
  unfold dropTrailing
  rw [List.chain'_reverse]
  apply chain'_dropWhile p l.reverse
  rw [List.chain'_reverse]
  exact h

theorem chain'_pyStrip {R : Char → Char → Prop} (p : Char → Bool) (l : List Char)
    (h : List.Chain' R l) : List.Chain' R (pyStrip p l) :=
  chain'_dropTrailing p _ (chain'_dropWhile p l h)

/-! ### `collapseAux` lemmas -/

theorem mem_collapseAux (p : Char → Bool) (r : Char) :
    ∀ (l : List Char) (b : Bool) (c : Char), c ∈ collapseAux p r b l → c = r ∨ c ∈ l := by
  intro l
  induction l with
  | nil => intro b c h; simp [collapseAux] at h
  | cons a t ih =>
    intro b c h
    simp only [collapseAux] at h
    split_ifs at h with h1 h2
    · rcases ih true c h with h3 | h3
      · exact Or.inl h3
      · exact Or.inr (List.mem_cons_of_mem a h3)
    · rcases List.mem_cons.mp h with h3 | h3
      · exact Or.inl h3
      · rcases ih true c h3 with h4 | h4
        · exact Or.inl h4
        · exact Or.inr (List.mem_cons_of_mem a h4)
    · rcases List.mem_cons.mp h with h3 | h3
      · exact Or.inr (h3 ▸ List.mem_cons_self a t)
      · rcases ih false c h3 with h4 | h4
        · exact Or.inl h4
        · exact Or.inr (List.mem_cons_of_mem a h4)

theorem mem_collapseRuns (p : Char → Bool) (r : Char) (l : List Char) (c : Char)
    (h : c ∈ collapseRuns p r l) : c = r ∨ c ∈ l :=
  mem_collapseAux p r l false c h

theorem collapseAux_congr_mem (p q : Char → Bool) (r : Char) :
    ∀ (l : List Char) (b : Bool), (∀ c ∈ l, p c = q c) →
      collapseAux p r b l = collapseAux q r b l := by
  intro l
  induction l with
  | nil => intro b _; rfl
  | cons a t ih =>
    intro b h
    have ht := fun c hc => h c (List.mem_cons_of_mem a hc)
    simp only [collapseAux]
    rw [h a (List.mem_cons_self a t), ih true ht, ih false ht]

theorem collapseAux_eq_self_of_none (p : Char → Bool) (r : Char) (l : List Char)
    (hl : ∀ c ∈ l, p c = false) : ∀ b, collapseAux p r b l = l := by
  induction l with
  | nil => intro b; rfl
  | cons a t ih =>
    intro b
    have ha : p a = false := hl a (List.mem_cons_self a t)
    have ih' := ih (fun c hc => hl c (List.mem_cons_of_mem a hc))
    simp [collapseAux, ha, ih' false]

theorem head?_collapseAux (p : Char → Bool) (r : Char) :
    ∀ (l : List Char) (b : Bool) (x : Char), (collapseAux p r b l).head? = some x →
      p x = false ∨ (x = r ∧ b = false) := by
  intro l
  induction l with
  | nil => intro b x h; simp [collapseAux] at h
  | cons a t ih =>
    intro b x h
    simp only [collapseAux] at h
    split_ifs at h with h1 h2
    · rcases ih true x h with h3 | h3
      · exact Or.inl h3
      · exact absurd h3.2 (by simp)
    · simp only [List.head?_cons, Option.some.injEq] at h
      exact Or.inr ⟨h.symm, by simpa using h2⟩
    · simp only [List.head?_cons, Option.some.injEq] at h
      subst h
      exact Or.inl (bool_eq_false h1)

theorem chain'_collapseAux (p : Char → Bool) (r : Char) :
    ∀ (l : List Char) (b : Bool),
      List.Chain' (fun a c => p a = false ∨ p c = false) (collapseAux p r b l) := by
  intro l
  induction l with
  | nil => intro b; simp [collapseAux]
  | cons a t ih =>
    intro b
    simp only [collapseAux]
    split_ifs with h1 h2
    · exact ih true
    · rw [List.chain'_cons']
      refine ⟨?_, ih true⟩
      intro y hy
      rcases head?_collapseAux p r t true y (Option.mem_def.mp hy) with h3 | h3
      · exact Or.inr h3
      · exact absurd h3.2 (by simp)
    · rw [List.chain'_cons']
      refine ⟨?_, ih false⟩
      intro y _
      exact Or.inl (bool_eq_false h1)

theorem head?_collapseAux_false_cases (p : Char → Bool) (r : Char) (l : List Char) (y : Char)
    (h : (collapseAux p r false l).head? = some y) : y = r ∨ l.head? = some y := by
  cases l with
  | nil => simp [collapseAux] at h
  | cons a t =>
    simp only [collapseAux] at h
    by_cases h1 : p a = true
    · rw [if_pos h1, if_neg (by simp)] at h
      simp only [List.head?_cons, Option.some.injEq] at h
      exact Or.inl h.symm
    · rw [if_neg h1] at h
      simp only [List.head?_cons, Option.some.injEq] at h
      exact Or.inr (by simp [h])

theorem chain'_collapseAux_preserve {S : Char → Char → Prop} (p : Char → Bool) (r : Char)
    (hr1 : ∀ x, S r x) (hr2 : ∀ x, S x r) :
    ∀ (l : List Char) (b : Bool), List.Chain' S l → List.Chain' S (collapseAux p r b l) := by
  intro l
  induction l with
  | nil => intro b _; simp [collapseAux]
  | cons a t ih =>
    intro b hc
    have hc' := List.chain'_cons'.mp hc
    simp only [collapseAux]
    split_ifs with h1 h2
    · exact ih true hc'.2
    · rw [List.chain'_cons']
      exact ⟨fun y _ => hr1 y, ih true hc'.2⟩
    · rw [List.chain'_cons']
      refine ⟨?_, ih false hc'.2⟩
      intro y hy
      rcases head?_collapseAux_false_cases p r t y (Option.mem_def.mp hy) with h3 | h3
      · rw [h3]
        exact hr2 a
      · exact hc'.1 y (Option.mem_def.mpr h3)

theorem collapseAux_true_eq_false (p : Char → Bool) (r : Char) (l : List Char)
    (h : ∀ x, l.head? = some x → p x = false) :
    collapseAux p r true l = collapseAux p r false l := by
  cases l with
  | nil => rfl
  | cons a t =>
    have ha : p a = false := h a rfl
    simp [collapseAux, ha]

theorem collapseAux_fixed (p : Char → Bool) (r : Char) :
    ∀ (l : List Char), List.Chain' (fun a c => p a = false ∨ p c = false) l →
      (∀ c ∈ l, p c = true → c = r) → collapseAux p r false l = l := by
  intro l
  induction l with
  | nil => intro _ _; rfl
  | cons a t ih =>
    intro h1 h2
    have hc := List.chain'_cons'.mp h1
    have ih' := ih hc.2 (fun c hcm hcp => h2 c (List.mem_cons_of_mem a hcm) hcp)
    by_cases hp : p a = true
    · have har : a = r := h2 a (List.mem_cons_self a t) hp
      have hth : ∀ x, t.head? = some x → p x = false := by
        intro x hx
        rcases hc.1 x (Option.mem_def.mpr hx) with h3 | h3
        · rw [hp] at h3
          exact absurd h3 (by simp)
        · exact h3
      simp only [collapseAux]
      rw [if_pos hp, if_neg (by simp), collapseAux_true_eq_false p r t hth, ih', ← har]
    · simp only [collapseAux]
      rw [if_neg hp, ih']

/-! ### Properties of the sanitizer pipeline -/

theorem sanitizeCore_kept (l : List Char) : ∀ c ∈ sanitizeCore l, isKept c = true := by
  intro c hc
  unfold sanitizeCore at hc
  have hc5 := mem_of_mem_pyStrip _ _ _ hc
  rcases mem_collapseRuns _ _ _ c hc5 with h | h
  · subst h; rfl
  rcases mem_collapseRuns _ _ _ c h with h' | h'
  · subst h'; rfl
  exact List.of_mem_filter h'

theorem sanitizeCore_head_ok (l : List Char) (c : Char)
    (h : (sanitizeCore l).head? = some c) : isStripChar c = false := by
  unfold sanitizeCore at h
  exact head?_pyStrip_false _ _ _ h

theorem sanitizeCore_last_ok (l : List Char) (c : Char)
    (h : (sanitizeCore l).getLast? = some c) : isStripChar c = false := by
  unfold sanitizeCore at h
  exact getLast?_pyStrip_false _ _ _ h

theorem sanitizeCore_chainU (l : List Char) :
    List.Chain' (fun a c => (a == '_') = false ∨ (c == '_') = false) (sanitizeCore l) := by
  unfold sanitizeCore collapseRuns
  apply chain'_pyStrip
  apply chain'_collapseAux_preserve (fun c => c == '-') '-'
  · intro x
    exact Or.inl (by decide)
  · intro x
    exact Or.inr (by decide)
  · exact chain'_collapseAux (fun c => c == '_') '_' _ false

theorem sanitizeCore_chainH (l : List Char) :
    List.Chain' (fun a c => (a == '-') = false ∨ (c == '-') = false) (sanitizeCore l) := by
  unfold sanitizeCore collapseRuns
  apply chain'_pyStrip
  exact chain'_collapseAux (fun c => c == '-') '-' _ false

theorem sanitizeList_ne_nil (l : List Char) : sanitizeList l ≠ [] := by
  unfold sanitizeList
  split_ifs with h
  · decide
  · exact h

theorem sanitizeList_kept (l : List Char) : ∀ c ∈ sanitizeList l, isKept c = true := by
  unfold sanitizeList
  split_ifs with h
  · decide
  · exact sanitizeCore_kept l

theorem sanitizeList_head_ok (l : List Char) :
    ∀ c, (sanitizeList l).head? = some c → isStripChar c = false := by
  unfold sanitizeList
  split_ifs with h
  · intro c hc
    have h2 : ("unnamed".data).head? = some 'u' := rfl
    rw [h2, Option.some.injEq] at hc
    subst hc
    rfl
  · exact sanitizeCore_head_ok l

theorem sanitizeList_last_ok (l : List Char) :
    ∀ c, (sanitizeList l).getLast? = some c → isStripChar c = false := by
  unfold sanitizeList
  split_ifs with h
  · intro c hc
    have h2 : ("unnamed".data).getLast? = some 'd' := by decide
    rw [h2, Option.some.injEq] at hc
    subst hc
    rfl
  · exact sanitizeCore_last_ok l

theorem sanitizeList_chainU (l : List Char) :
    List.Chain' (fun a c => (a == '_') = false ∨ (c == '_') = false) (sanitizeList l) := by
  unfold sanitizeList
  split_ifs with h
  · rw [show "unnamed".data = ['u', 'n', 'n', 'a', 'm', 'e', 'd'] from rfl]
    simp [List.chain'_cons]
  · exact sanitizeCore_chainU l

theorem sanitizeList_chainH (l : List Char) :
    List.Chain' (fun a c => (a == '-') = false ∨ (c == '-') = false) (sanitizeList l) := by
  unfold sanitizeList
  split_ifs with h
  · rw [show "unnamed".data = ['u', 'n', 'n', 'a', 'm', 'e', 'd'] from rfl]
    simp [List.chain'_cons]
  · exact sanitizeCore_chainH l

theorem sanitizeCore_fixed (l : List Char)
    (hK : ∀ c ∈ l, isKept c = true)
    (hU : List.Chain' (fun a c => (a == '_') = false ∨ (c == '_') = false) l)
    (hH : List.Chain' (fun a c => (a == '-') = false ∨ (c == '-') = false) l)
    (hhd : ∀ c, l.head? = some c → isStripChar c = false)
    (hlt : ∀ c, l.getLast? = some c → isStripChar c = false) :
    sanitizeCore l = l := by
  unfold sanitizeCore collapseRuns
  have e1 : pyStrip isPySpace l = l := by
    apply pyStrip_eq_self
    · intro c hc
      exact kept_not_pySpace c (hK c (mem_of_head?_eq hc))
    · intro c hc
      exact kept_not_pySpace c (hK c (mem_of_getLast?_eq hc))
  rw [e1]
  have e2 : collapseAux isSepChar '_' false l = l :=
    collapseAux_eq_self_of_none isSepChar '_' l (fun c hc => kept_not_sep c (hK c hc)) false
  rw [e2]
  have e3 : l.filter isKept = l := List.filter_eq_self.mpr hK
  rw [e3]
  have e4 : collapseAux (fun c => c == '_') '_' false l = l := by
    apply collapseAux_fixed
    · exact hU
    · intro c _ hc
      simpa using hc
  rw [e4]
  have e5 : collapseAux (fun c => c == '-') '-' false l = l := by
    apply collapseAux_fixed
    · exact hH
    · intro c _ hc
      simpa using hc
  rw [e5]
  exact pyStrip_eq_self isStripChar l hhd hlt

theorem sanitizeList_fixed (l : List Char)
    (hK : ∀ c ∈ l, isKept c = true)
    (hU : List.Chain' (fun a c => (a == '_') = false ∨ (c == '_') = false) l)
    (hH : List.Chain' (fun a c => (a == '-') = false ∨ (c == '-') = false) l)
    (hhd : ∀ c, l.head? = some c → isStripChar c = false)
    (hlt : ∀ c, l.getLast? = some c → isStripChar c = false)
    (hne : l ≠ []) : sanitizeList l = l := by
  unfold sanitizeList
  rw [sanitizeCore_fixed l hK hU hH hhd hlt, if_neg hne]

theorem sanitizeList_idem (l : List Char) :
    sanitizeList (sanitizeList l) = sanitizeList l :=
  sanitizeList_fixed (sanitizeList l) (sanitizeList_kept l) (sanitizeList_chainU l)
    (sanitizeList_chainH l) (sanitizeList_head_ok l) (sanitizeList_last_ok l)
    (sanitizeList_ne_nil l)

/-! ### The Latin-1 pipeline is the ASCII pipeline on ASCII strings -/

theorem sanitizeCoreL1_ascii (l : List Char) (h : ∀ c ∈ l, c.toNat < 128) :
    sanitizeCoreL1 l = sanitizeCore l := by
  unfold sanitizeCoreL1 sanitizeCore
  have e1 : pyStrip isPySpaceL1 l = pyStrip isPySpace l :=
    pyStrip_congr_mem _ _ l (fun c hc => isPySpaceL1_ascii c (h c hc))
  rw [e1]
  have hm1 : ∀ c ∈ pyStrip isPySpace l, c.toNat < 128 :=
    fun c hc => h c (mem_of_mem_pyStrip _ _ _ hc)
  have e2 : collapseRuns isSepCharL1 '_' (pyStrip isPySpace l) =
      collapseRuns isSepChar '_' (pyStrip isPySpace l) :=
    collapseAux_congr_mem _ _ '_' _ false (fun c hc => isSepCharL1_ascii c (hm1 c hc))
  rw [e2]
  have hm2 : ∀ c ∈ collapseRuns isSepChar '_' (pyStrip isPySpace l), c.toNat < 128 := by
    intro c hc
    rcases mem_collapseRuns _ _ _ c hc with he | he
    · subst he; decide
    · exact hm1 c he
  have e3 : (collapseRuns isSepChar '_' (pyStrip isPySpace l)).filter isKeptL1 =
      (collapseRuns isSepChar '_' (pyStrip isPySpace l)).filter isKept :=
    filter_congr_mem _ _ _ (fun c hc => isKeptL1_ascii c (hm2 c hc))
  rw [e3]

theorem sanitizeListL1_ascii (l : List Char) (h : ∀ c ∈ l, c.toNat < 128) :
    sanitizeListL1 l = sanitizeList l := by
  unfold sanitizeListL1 sanitizeList
  rw [sanitizeCoreL1_ascii l h]

theorem sanitize_filenameL1_ascii (s : String) (h : ∀ c ∈ s.data, c.toNat < 128) :
    sanitize_filenameL1 s = sanitize_filename s := by
  unfold sanitize_filenameL1 sanitize_filename
  rw [sanitizeListL1_ascii s.data h]

/-- C2 counterexample: Python 3's `\w` is Unicode-aware, so the program keeps
the word character `é` (U+00E9): under the Latin-1-faithful embedding the
sanitized `"café"` is `"café"` itself, and its character `é` lies outside
`[A-Za-z0-9_.-]` — refuting the claim's charset guarantee over arbitrary
input strings. -/
theorem sanitize_charset_counterexample :
    sanitize_filenameL1 "café" = "café" ∧
    'é' ∈ (sanitize_filenameL1 "café").data ∧
    isKept 'é' = false := by
  decide

/-- C2 (amended): for every ASCII input string — the whole catalog is ASCII —
the sanitizer terminates (it is a total function) and returns a non-empty
string all of whose characters lie in `[A-Za-z0-9_.-]` (the set `isKept`),
whose first and last characters are neither `_` nor `-`; and when the
pipeline leaves nothing, the literal `"unnamed"` is returned.  The statement
is about the Latin-1-faithful embedding, so the ASCII hypothesis is
load-bearing: without it the charset conjunct fails, as
`sanitize_charset_counterexample` shows at `"café"`. -/
theorem sanitize_filename_total_ascii (s : String)
    (hascii : ∀ c ∈ s.data, c.toNat < 128) :
    (sanitize_filenameL1 s).data ≠ [] ∧
    (∀ c ∈ (sanitize_filenameL1 s).data, isKept c = true) ∧
    (∀ c, (sanitize_filenameL1 s).data.head? = some c → isStripChar c = false) ∧
    (∀ c, (sanitize_filenameL1 s).data.getLast? = some c → isStripChar c = false) ∧
    (sanitizeCoreL1 s.data = [] → sanitize_filenameL1 s = "unnamed") := by
  rw [sanitize_filenameL1_ascii s hascii, sanitizeCoreL1_ascii s.data hascii]
  have hd : (sanitize_filename s).data = sanitizeList s.data := rfl
  rw [hd]
  refine ⟨sanitizeList_ne_nil s.data, sanitizeList_kept s.data, sanitizeList_head_ok s.data,
    sanitizeList_last_ok s.data, ?_⟩
  intro h
  unfold sanitize_filename sanitizeList
  rw [if_pos h]

/-- Witness for the amended C2 at the spec's own example input. -/
theorem sanitize_filename_total_ascii_witness :
    (∀ c ∈ ("  Central Hong Kong! " : String).data, c.toNat < 128) ∧
    ((sanitize_filenameL1 "  Central Hong Kong! ").data ≠ [] ∧
     (∀ c ∈ (sanitize_filenameL1 "  Central Hong Kong! ").data, isKept c = true) ∧
     (∀ c, (sanitize_filenameL1 "  Central Hong Kong! ").data.head? = some c →
        isStripChar c = false) ∧
     (∀ c, (sanitize_filenameL1 "  Central Hong Kong! ").data.getLast? = some c →
        isStripChar c = false) ∧
     (sanitizeCoreL1 ("  Central Hong Kong! " : String).data = [] →
        sanitize_filenameL1 "  Central Hong Kong! " = "unnamed")) :=
  ⟨by decide, sanitize_filename_total_ascii "  Central Hong Kong! " (by decide)⟩

/-- C6: `sanitize_filename` is idempotent: sanitizing an already-sanitized
string changes nothing. -/
theorem sanitize_filename_idempotent (s : String) :
    sanitize_filename (sanitize_filename s) = sanitize_filename s := by
  unfold sanitize_filename
  exact congrArg String.mk (sanitizeList_idem s.data)

/-- C7: the box returned by `calculate_bounding_box` is symmetric about the
center, in latitude and in longitude, as real-number equations. -/
theorem bbox_symmetry (lat lon size : ℝ) :
    (calculate_bounding_box lat lon size).max_lat - lat =
      lat - (calculate_bounding_box lat lon size).min_lat ∧
    (calculate_bounding_box lat lon size).max_lon - lon =
      lon - (calculate_bounding_box lat lon size).min_lon := by
  dsimp only [calculate_bounding_box]
  constructor <;> ring

/-- C8: for a fixed center, doubling `side_km` doubles the latitude extent
and the longitude extent of the returned box, in the normal branch and in the
near-pole fallback branch alike (the branch taken depends only on the
latitude). -/
theorem bbox_scaling (lat lon size : ℝ) :
    (calculate_bounding_box lat lon (2 * size)).max_lat -
        (calculate_bounding_box lat lon (2 * size)).min_lat =
      2 * ((calculate_bounding_box lat lon size).max_lat -
        (calculate_bounding_box lat lon size).min_lat) ∧
    (calculate_bounding_box lat lon (2 * size)).max_lon -
        (calculate_bounding_box lat lon (2 * size)).min_lon =
      2 * ((calculate_bounding_box lat lon size).max_lon -
        (calculate_bounding_box lat lon size).min_lon) := by
  dsimp only [calculate_bounding_box]
  constructor
  · dsimp only [degrees]
    ring
  · split_ifs with h
    · dsimp only [degrees]
      ring
    · dsimp only [degrees]
      ring

/-- C4: when the parallel-circle radius `earth_radius * cos(center_lat)` is
below the 0.1 km threshold, the longitude half-extent is
`degrees((side_km/2) / (6371 * cos(radians 1)))` — a fixed reference latitude
of 1 degree — and the warning is emitted; otherwise the true parallel radius
is the divisor and no warning is emitted. -/
theorem pole_fallback_formula (lat lon size : ℝ) :
    (earth_radius_km * Real.cos (radians lat) < 0.1 →
      ((calculate_bounding_box lat lon size).max_lon -
          (calculate_bounding_box lat lon size).min_lon) / 2 =
        degrees ((size / 2) / (earth_radius_km * Real.cos (radians 1))) ∧
      poleWarningEmitted lat) ∧
    (0.1 ≤ earth_radius_km * Real.cos (radians lat) →
      ((calculate_bounding_box lat lon size).max_lon -
          (calculate_bounding_box lat lon size).min_lon) / 2 =
        degrees ((size / 2) / (earth_radius_km * Real.cos (radians lat))) ∧
      ¬ poleWarningEmitted lat) := by
  constructor
  · intro h
    refine ⟨?_, h⟩
    dsimp only [calculate_bounding_box]
    rw [if_pos h]
    ring
  · intro h
    refine ⟨?_, not_lt.mpr h⟩
    dsimp only [calculate_bounding_box]
    rw [if_neg (not_lt.mpr h)]
    ring

/-- Witness for C4 at the north pole: latitude 90 takes the fallback branch
and the longitude half-extent is the 1-degree-reference formula. -/
theorem pole_fallback_formula_witness :
    earth_radius_km * Real.cos (radians 90) < 0.1 ∧
    (((calculate_bounding_box 90 0 2).max_lon -
        (calculate_bounding_box 90 0 2).min_lon) / 2 =
      degrees ((2 / 2) / (earth_radius_km * Real.cos (radians 1))) ∧
     poleWarningEmitted 90) := by
  have h : earth_radius_km * Real.cos (radians 90) < 0.1 := by
    have h90 : radians 90 = Real.pi / 2 := by
      unfold radians
      ring
    rw [h90, Real.cos_pi_div_two]
    norm_num
  exact ⟨h, (pole_fallback_formula 90 0 2).1 h⟩

/-- C10: for a latitude in [-90, 90], any longitude and any positive side
length, the returned box is non-degenerate: `min_lat < max_lat` and
`min_lon < max_lon`. -/
theorem bbox_nondegenerate (lat lon size : ℝ) (_h1 : -90 ≤ lat) (_h2 : lat ≤ 90)
    (hs : 0 < size) :
    (calculate_bounding_box lat lon size).min_lat <
      (calculate_bounding_box lat lon size).max_lat ∧
    (calculate_bounding_box lat lon size).min_lon <
      (calculate_bounding_box lat lon size).max_lon := by
  have hpi : (0:ℝ) < Real.pi := Real.pi_pos
  have e1 : (0:ℝ) < size / 2 := by linarith
  have e3 : (0:ℝ) < 180 / Real.pi := div_pos (by norm_num) hpi
  have hR : (0:ℝ) < earth_radius_km := by
    unfold earth_radius_km
    norm_num
  have hlat : 0 < degrees ((size / 2) / earth_radius_km) := by
    unfold degrees
    exact mul_pos (div_pos e1 hR) e3
  dsimp only [calculate_bounding_box]
  constructor
  · linarith
  · split_ifs with h
    · have hcos1 : 0 < Real.cos (radians 1) := by
        unfold radians
        apply Real.cos_pos_of_mem_Ioo
        constructor
        · have hp2 : (0:ℝ) < Real.pi / 2 := by positivity
          have hp180 : (0:ℝ) < 1 * (Real.pi / 180) := by positivity
          linarith
        · rw [one_mul]
          exact div_lt_div_of_pos_left hpi (by norm_num) (by norm_num)
      have hd : 0 < degrees ((size / 2) / (earth_radius_km * Real.cos (radians 1))) := by
        unfold degrees
        exact mul_pos (div_pos e1 (mul_pos hR hcos1)) e3
      linarith
    · have hE : (0:ℝ) < earth_radius_km * Real.cos (radians lat) :=
        lt_of_lt_of_le (by norm_num) (not_lt.mp h)
      have hd : 0 < degrees ((size / 2) / (earth_radius_km * Real.cos (radians lat))) := by
        unfold degrees
        exact mul_pos (div_pos e1 hE) e3
      linarith

/-- Witness for C10 at the equator with a 2 km box. -/
theorem bbox_nondegenerate_witness :
    ((-90:ℝ) ≤ 0 ∧ (0:ℝ) ≤ 90 ∧ (0:ℝ) < 2) ∧
    ((calculate_bounding_box 0 0 2).min_lat < (calculate_bounding_box 0 0 2).max_lat ∧
     (calculate_bounding_box 0 0 2).min_lon < (calculate_bounding_box 0 0 2).max_lon) :=
  ⟨⟨by norm_num, by norm_num, by norm_num⟩,
    bbox_nondegenerate 0 0 2 (by norm_num) (by norm_num) (by norm_num)⟩

theorem runAux_cons (cfg : DriverConfig) (total : Nat) (st : DriverState)
    (p : String) (rest : List String) :
    runAux cfg total st (p :: rest) = runAux cfg total (stepLocation cfg total st p) rest :=
  rfl

/-! ### Per-step facts -/

theorem stepLocation_processed (cfg : DriverConfig) (total : Nat) (st : DriverState)
    (p : String) : (stepLocation cfg total st p).processed = st.processed + 1 := by
  simp only [stepLocation]
  split_ifs <;> rfl

theorem stepLocation_skip (cfg : DriverConfig) (total : Nat) (st : DriverState) (p : String)
    (h : fileExists cfg st p = true) :
    stepLocation cfg total st p =
      { st with processed := st.processed + 1, success := st.success + 1 } := by
  have h1 : fileExists cfg { st with processed := st.processed + 1 } p = true := h
  simp only [stepLocation]
  rw [if_pos h1]

theorem stepLocation_inv (cfg : DriverConfig) (total : Nat) (st : DriverState) (p : String)
    (h : st.processed = st.success + st.failed) :
    (stepLocation cfg total st p).processed =
      (stepLocation cfg total st p).success + (stepLocation cfg total st p).failed := by
  simp only [stepLocation]
  split_ifs <;> dsimp only <;> omega

theorem stepLocation_calls_new (cfg : DriverConfig) (total : Nat) (st : DriverState)
    (p : String) (h : fileExists cfg { st with processed := st.processed + 1 } p = false) :
    (stepLocation cfg total st p).calls = st.calls ++ [p] := by
  simp only [stepLocation]
  rw [if_neg (by simp [h])]
  split_ifs <;> rfl

theorem stepLocation_sleeps_new (cfg : DriverConfig) (total : Nat) (st : DriverState)
    (p : String) (h : fileExists cfg { st with processed := st.processed + 1 } p = false) :
    (stepLocation cfg total st p).sleeps =
      if st.processed + 1 < total then st.sleeps + 1 else st.sleeps := by
  simp only [stepLocation]
  rw [if_neg (by simp [h])]
  split_ifs <;> rfl

theorem stepLocation_written_cases (cfg : DriverConfig) (total : Nat) (st : DriverState)
    (p : String) :
    ∀ q, q ∈ (stepLocation cfg total st p).written → q ∈ st.written ∨ q = p := by
  intro q
  simp only [stepLocation]
  split_ifs <;> intro hq
  · exact Or.inl hq
  · rcases List.mem_append.mp hq with h | h
    · exact Or.inl h
    · exact Or.inr (List.mem_singleton.mp h)
  · rcases List.mem_append.mp hq with h | h
    · exact Or.inl h
    · exact Or.inr (List.mem_singleton.mp h)
  · exact Or.inl hq
  · exact Or.inl hq

/-! ### Whole-run facts -/

theorem runAux_inv (cfg : DriverConfig) (total : Nat) :
    ∀ (paths : List String) (st : DriverState),
      st.processed = st.success + st.failed →
      (runAux cfg total st paths).processed =
        (runAux cfg total st paths).success + (runAux cfg total st paths).failed := by
  intro paths
  induction paths with
  | nil => intro st h; exact h
  | cons p rest ih =>
    intro st h
    rw [runAux_cons]
    exact ih _ (stepLocation_inv cfg total st p h)

theorem runAux_processed (cfg : DriverConfig) (total : Nat) :
    ∀ (paths : List String) (st : DriverState),
      (runAux cfg total st paths).processed = st.processed + paths.length := by
  intro paths
  induction paths with
  | nil => intro st; rfl
  | cons p rest ih =>
    intro st
    rw [runAux_cons, ih, stepLocation_processed, List.length_cons]
    omega

theorem stepLocation_failed_calls (cfg : DriverConfig) (total : Nat) (st : DriverState)
    (p : String)
    (h : st.failed = (st.calls.filter (fun q => !cfg.netSuccess q)).length) :
    (stepLocation cfg total st p).failed =
      ((stepLocation cfg total st p).calls.filter (fun q => !cfg.netSuccess q)).length := by
  simp only [stepLocation]
  split_ifs with h1 h2 h3 h4
  · exact h
  · dsimp only
    have hp : (List.filter (fun q => !cfg.netSuccess q) [p]) = [] := by simp [h2]
    rw [List.filter_append, hp, List.append_nil]
    exact h
  · dsimp only
    have hp : (List.filter (fun q => !cfg.netSuccess q) [p]) = [] := by simp [h2]
    rw [List.filter_append, hp, List.append_nil]
    exact h
  · dsimp only
    have hp : (List.filter (fun q => !cfg.netSuccess q) [p]) = [p] := by
      simp [bool_eq_false h2]
    rw [List.filter_append, hp, List.length_append, List.length_singleton]
    omega
  · dsimp only
    have hp : (List.filter (fun q => !cfg.netSuccess q) [p]) = [p] := by
      simp [bool_eq_false h2]
    rw [List.filter_append, hp, List.length_append, List.length_singleton]
    omega

theorem runAux_failed_calls (cfg : DriverConfig) (total : Nat) :
    ∀ (paths : List String) (st : DriverState),
      st.failed = (st.calls.filter (fun q => !cfg.netSuccess q)).length →
      (runAux cfg total st paths).failed =
        ((runAux cfg total st paths).calls.filter (fun q => !cfg.netSuccess q)).length := by
  intro paths
  induction paths with
  | nil => intro st h; exact h
  | cons p rest ih =>
    intro st h
    rw [runAux_cons]
    exact ih _ (stepLocation_failed_calls cfg total st p h)

theorem no_call_of_preexisting (cfg : DriverConfig) (total : Nat) (q : String)
    (hq : cfg.preexisting q = true) :
    ∀ (paths : List String) (st : DriverState), q ∉ st.calls →
      q ∉ (runAux cfg total st paths).calls := by
  intro paths
  induction paths with
  | nil => intro st h; exact h
  | cons p rest ih =>
    intro st h
    rw [runAux_cons]
    apply ih
    by_cases hqp : q = p
    · subst hqp
      have hfe : fileExists cfg { st with processed := st.processed + 1 } q = true := by
        unfold fileExists
        rw [hq]
        rfl
      rw [stepLocation_skip cfg total st q hfe]
      exact h
    · simp only [stepLocation]
      split_ifs
      · exact h
      all_goals
        show q ∉ st.calls ++ [p]
        intro hc
        rcases List.mem_append.mp hc with hc | hc
        · exact h hc
        · exact hqp (List.mem_singleton.mp hc)

theorem runAux_fresh (cfg : DriverConfig) :
    ∀ (paths : List String) (st : DriverState) (total : Nat),
      (∀ p ∈ paths, cfg.preexisting p = false) →
      (∀ p ∈ paths, p ∉ st.written) →
      paths.Nodup →
      total = st.processed + paths.length →
      (runAux cfg total st paths).calls = st.calls ++ paths ∧
      (runAux cfg total st paths).sleeps = st.sleeps + (paths.length - 1) := by
  intro paths
  induction paths with
  | nil =>
    intro st total _ _ _ _
    constructor
    · exact (List.append_nil st.calls).symm
    · rfl
  | cons p rest ih =>
    intro st total hpre hw hnd htot
    rw [List.length_cons] at htot
    have hfe : fileExists cfg { st with processed := st.processed + 1 } p = false := by
      unfold fileExists
      rw [hpre p (List.mem_cons_self p rest)]
      simp [hw p (List.mem_cons_self p rest)]
    have hcalls := stepLocation_calls_new cfg total st p hfe
    have hsleeps := stepLocation_sleeps_new cfg total st p hfe
    have hproc := stepLocation_processed cfg total st p
    obtain ⟨ih1, ih2⟩ := ih (stepLocation cfg total st p) total
      (fun q hq => hpre q (List.mem_cons_of_mem p hq))
      (fun q hq hmem => by
        rcases stepLocation_written_cases cfg total st p q hmem with hh | hh
        · exact hw q (List.mem_cons_of_mem p hq) hh
        · subst hh
          exact absurd hq (List.nodup_cons.mp hnd).1)
      (List.nodup_cons.mp hnd).2
      (by rw [hproc]; omega)
    rw [runAux_cons]
    constructor
    · rw [ih1, hcalls, List.append_assoc]
      rfl
    · rw [ih2, hsleeps]
      cases rest with
      | nil =>
        simp only [List.length_nil] at htot
        have hc : ¬(st.processed + 1 < total) := by omega
        rw [if_neg hc]
        rfl
      | cons d t =>
        simp only [List.length_cons] at htot
        have hc : st.processed + 1 < total := by omega
        rw [if_pos hc]
        simp only [List.length_cons]
        omega

/-! ### Claim theorems about the driver -/

/-- C1: a location whose output file already exists when the driver reaches
it is pure bookkeeping — `processed` and `success` increment and nothing else
changes (no network call, no write, no sleep); consequently, a second driver
run over the output directory populated by a first run (the original files
plus everything the first run wrote) performs zero network calls for every
path whose file was written by the first run, whatever the network would
answer. -/
theorem skip_and_rerun_no_calls (cfg : DriverConfig) (total : Nat) (st : DriverState)
    (p : String) (h : fileExists cfg st p = true) :
    stepLocation cfg total st p =
      { st with processed := st.processed + 1, success := st.success + 1 } ∧
    ∀ (cfg1 : DriverConfig) (ns : String → Bool) (paths : List String) (q : String),
      q ∈ (runDriver cfg1 paths).written →
      q ∉ (runDriver
            ⟨fun x => cfg1.preexisting x || decide (x ∈ (runDriver cfg1 paths).written), ns⟩
            paths).calls := by
  constructor
  · exact stepLocation_skip cfg total st p h
  · intro cfg1 ns paths q hqw
    unfold runDriver
    apply no_call_of_preexisting
    · show (cfg1.preexisting q || decide (q ∈ (runDriver cfg1 paths).written)) = true
      simp [hqw]
    · exact List.not_mem_nil q

/-- Witness for C1: with the file already on disk, the step increments the
two counters and changes nothing else. -/
theorem skip_and_rerun_no_calls_witness :
    fileExists ⟨fun _ => true, fun _ => false⟩ initState "a" = true ∧
    stepLocation ⟨fun _ => true, fun _ => false⟩ 5 initState "a" =
      { initState with processed := initState.processed + 1,
                       success := initState.success + 1 } := by
  have h : fileExists ⟨fun _ => true, fun _ => false⟩ initState "a" = true := rfl
  exact ⟨h, (skip_and_rerun_no_calls ⟨fun _ => true, fun _ => false⟩ 5 initState "a" h).1⟩

/-- C3: no single failure aborts the batch: every location of the catalog is
processed, and the final failed count equals exactly the number of network
calls whose download attempt failed. -/
theorem failure_isolation (cfg : DriverConfig) (paths : List String) :
    (runDriver cfg paths).processed = paths.length ∧
    (runDriver cfg paths).failed =
      ((runDriver cfg paths).calls.filter (fun q => !cfg.netSuccess q)).length := by
  constructor
  · unfold runDriver
    rw [runAux_processed]
    simp [initState]
  · unfold runDriver
    exact runAux_failed_calls cfg paths.length paths initState rfl

/-- C5: in a run where no output file pre-exists and the derived paths are
distinct, every location issues a network call — the call list is exactly the
catalog, in order — and the number of sleeps issued is the number of
locations minus one (no sleep after the last location). -/
theorem delay_count (cfg : DriverConfig) (paths : List String)
    (hpre : ∀ p ∈ paths, cfg.preexisting p = false) (hnd : paths.Nodup) :
    (runDriver cfg paths).calls = paths ∧
    (runDriver cfg paths).sleeps = paths.length - 1 := by
  unfold runDriver
  obtain ⟨h1, h2⟩ := runAux_fresh cfg paths initState paths.length hpre
    (fun p _ => List.not_mem_nil p) hnd (by simp [initState])
  constructor
  · rw [h1]
    rfl
  · rw [h2]
    simp [initState]

/-- Witness for C5: three fresh locations, two sleeps. -/
theorem delay_count_witness :
    ((∀ p ∈ ["a", "b", "c"],
        (⟨fun _ => false, fun _ => true⟩ : DriverConfig).preexisting p = false) ∧
      (["a", "b", "c"] : List String).Nodup) ∧
    ((runDriver ⟨fun _ => false, fun _ => true⟩ ["a", "b", "c"]).calls = ["a", "b", "c"] ∧
     (runDriver ⟨fun _ => false, fun _ => true⟩ ["a", "b", "c"]).sleeps =
       (["a", "b", "c"] : List String).length - 1) := by
  have h1 : ∀ p ∈ ["a", "b", "c"],
      (⟨fun _ => false, fun _ => true⟩ : DriverConfig).preexisting p = false := by
    intro p _
    rfl
  have h2 : (["a", "b", "c"] : List String).Nodup := by decide
  exact ⟨⟨h1, h2⟩, delay_count ⟨fun _ => false, fun _ => true⟩ ["a", "b", "c"] h1 h2⟩

/-- C9: after every completed location iteration — that is, after every
prefix of the catalog — the counters satisfy
`processed = success + failed` (locations skipped because their file exists
count in `success`), and the final summary counts satisfy the same
equation. -/
theorem counter_invariant (cfg : DriverConfig) (paths : List String) (n : Nat) :
    (runAux cfg paths.length initState (paths.take n)).processed =
      (runAux cfg paths.length initState (paths.take n)).success +
        (runAux cfg paths.length initState (paths.take n)).failed ∧
    (runDriver cfg paths).processed =
      (runDriver cfg paths).success + (runDriver cfg paths).failed :=
  ⟨runAux_inv cfg paths.length (paths.take n) initState rfl,
   runAux_inv cfg paths.length paths initState rfl⟩

end OSMDownload
